import Mathlib

/-!
Shallow embedding of `src/lfsr.c` (howerj/lfsr-vhdl): a 16-bit accumulator VM
whose program counter is advanced by an 8-bit Galois LFSR.  Machine integers
are modelled as `Nat` with explicit truncation (`w16`, `&&& 0xFF`) at every
point where the C code assigns to a fixed-width field.  The two device
callbacks (`v->get`, `v->put`) are modelled by an input stream (`inp`), an
output trace (`outp`) and a constant reported result (`putRes`); the optional
debug stream is modelled by a flag (`debug`), a flag saying whether writes to
it succeed (`traceOk`), and the list of emitted first-output diagnostics
(`diag`).  Array accesses are modelled through `Option`: `none` stands for an
out-of-bounds access, which the theorems show is unreachable when the memory
has its declared capacity `SZ`.
-/

namespace LfsrVhdl

/-- Memory capacity in 16-bit words; macro `SZ` in lfsr.c line 7. -/
def SZ : Nat := 0x1000

/-- Canonical LFSR tap mask; macro `POLYNOMIAL` in lfsr.c line 8. -/
def POLYNOMIAL : Nat := 0xB8

/-- Program-counter mask; macro `PCMSK` in lfsr.c line 9. -/
def PCMSK : Nat := 0xFF

/-- Option bit `OLFSR` (lfsr.c line 11); when set, `run` passes a true `add`
flag to `lfsr`, i.e. the PC advances by increment instead of by LFSR. -/
def OLFSR : Nat := 1

/-- Option bit `OADD` (lfsr.c line 11); selects the accumulate variant of
opcode 2. -/
def OADD : Nat := 2

/-- Option bit `OFIRST` (lfsr.c line 11); while set, the first-output
diagnostic of `store` is still pending. -/
def OFIRST : Nat := 4

/-- Reduction modulo 2^16: models conversion/assignment to a C `uint16_t`. -/
def w16 (x : Nat) : Nat := x % 65536

/-- The sequencer, lfsr.c lines 21-26:
a pure function; in `add` mode it returns `(n + 1) & PCMSK`, otherwise it
takes `feedback = n & 1`, shifts `n` right once, xors the tap mask in when
the feedback bit was set, and masks the result with `PCMSK`. -/
def lfsr (n polynomial_mask : Nat) (add : Bool) : Nat :=
  if add then (n + 1) &&& PCMSK
  else
    let feedback := n &&& 1
    let n1 := n >>> 1
    (if feedback ≠ 0 then n1 ^^^ polynomial_mask else n1) &&& PCMSK

/-- Transcription of the specification's wording for the sequencer contract
(spec section 4.1), used as the comparison point for refinement claim C1:
increment mode returns `(n + 1) mod 256`; LFSR mode takes `feedback = n mod 2`,
the zero-fill right shift `n / 2`, xors the polynomial mask in exactly when
the feedback was 1, and reduces the result to 8 bits. -/
def next_pc (n polynomial_mask : Nat) (increment : Bool) : Nat :=
  if increment then (n + 1) % 256
  else
    let feedback := n % 2
    let shifted := n / 2
    (if feedback = 1 then shifted ^^^ polynomial_mask else shifted) % 256

/-- Machine state, struct `vm_t` of lfsr.c lines 13-19, with the device
callbacks replaced by explicit data: `inp` is the unread input stream of
`v->get`, `outp` the characters handed to `v->put`, `putRes` the (constant)
result the put callback reports, `diag` the cycle counts printed by the
one-shot first-output diagnostic, `debug` whether `v->debug` is non-NULL and
`traceOk` whether writes to the debug stream succeed. -/
structure VM where
  m : List Nat
  pc : Nat
  a : Nat
  opts : Nat
  inp : List Int
  outp : List Nat
  putRes : Int
  diag : List Nat
  debug : Bool
  traceOk : Bool
deriving DecidableEq

/-- The input callback (`get`, lfsr.c lines 77-79): `fgetc` returns the next
character of the stream, or -1 at end of input. -/
def vmGet (v : VM) : Int × VM :=
  match v.inp with
  | [] => (-1, v)
  | c :: rest => (c, { v with inp := rest })

/-- Memory/device read, lfsr.c lines 28-30.  When `io` is set and bit 15 of
the address is set the input device is read (its `int` result converted to
`uint16_t`, i.e. reduced mod 2^16); otherwise the word at `addr % SZ` is
returned.  `none` models an out-of-bounds array read; memory cells are
`uint16_t`, hence the `w16` on the value read. -/
def load (v : VM) (addr : Nat) (io : Bool) : Option (Nat × VM) :=
  if io = true ∧ addr &&& 0x8000 ≠ 0 then
    some (((vmGet v).1 % 65536).toNat, (vmGet v).2)
  else
    match v.m.get? (addr % SZ) with
    | some x => some (w16 x, v)
    | none => none

/-- Memory/device write, lfsr.c lines 32-43.  An address with bit 15 set
goes to the output device: if `OFIRST` is still pending it is cleared and,
when a debug stream is attached, the cycle count is emitted; then the value
is handed to the put callback, whose result is discarded -
`(void)v->put(v->out, val)` - so `putRes` is never consulted.  Otherwise the
word at `addr % SZ` is overwritten (`none` models an out-of-bounds write).
Clearing `OFIRST` in the `uint16_t` field `opts` is `opts &&& 0xFFFB`. -/
def store (v : VM) (addr val cycles : Nat) : Option VM :=
  if addr &&& 0x8000 ≠ 0 then
    let v1 :=
      if v.opts &&& OFIRST ≠ 0 then
        let v0 := { v with opts := v.opts &&& 0xFFFB }
        if v.debug then { v0 with diag := v0.diag ++ [cycles] } else v0
      else v
    some { v1 with outp := v1.outp ++ [val] }
  else
    if addr % SZ < v.m.length then
      some { v with m := v.m.set (addr % SZ) val }
    else none

/-- Operand computation, lfsr.c line 53: with bit 15 of the instruction set
the operand is loaded (never as I/O) from the address in the immediate field,
otherwise it is the immediate field itself. -/
def fetchArg (v : VM) (ins : Nat) : Option (Nat × VM) :=
  if ins &&& 0x8000 ≠ 0 then load v (ins &&& 0xFFF) false
  else some (ins &&& 0xFFF, v)

/-- Result of one iteration of the fetch-decode-execute loop:
`cont` continues with updated state, `halt` is the `goto end` of the
self-referential JMP, `traceErr` is the early `return -1` when the debug
trace write fails (lfsr.c line 54), `memFault` models an out-of-bounds
array access (shown unreachable for memories of capacity `SZ`). -/
inductive StepRes where
  | cont (v : VM) (pc a : Nat)
  | halt (v : VM) (pc a : Nat)
  | traceErr (v : VM)
  | memFault
deriving DecidableEq

/-- One iteration of the loop in `run`, lfsr.c lines 48-64.  `opts0` is the
local copy of `v->opts` made at line 46 (store mutates `v->opts`, but the
loop's own reads of the option bits use the stale local copy).  The opcode
dispatch: 0 xor, 1 and, 2 add/shift-left, 3 shift-right of the operand,
4 load (with I/O), 5 store, 6 jump or halt, 7 (the final case; the opcode is
`&&& 0x7` so at most 7) jump-if-zero. -/
def step (opts0 : Nat) (v : VM) (pc a cycles : Nat) : StepRes :=
  match v.m.get? (pc % SZ) with
  | none => .memFault
  | some ins0 =>
    let ins := w16 ins0
    let _pc := lfsr pc POLYNOMIAL (opts0 &&& OLFSR != 0)
    match fetchArg v ins with
    | none => .memFault
    | some (arg, v1) =>
      if v1.debug = true ∧ v1.traceOk = false then .traceErr v1
      else
        match (ins >>> 12) &&& 0x7 with
        | 0 => .cont v1 _pc (w16 (a ^^^ arg))
        | 1 => .cont v1 _pc (w16 (a &&& arg))
        | 2 => .cont v1 _pc (if opts0 &&& OADD ≠ 0 then w16 (a + arg) else w16 (arg <<< 1))
        | 3 => .cont v1 _pc (w16 (arg >>> 1))
        | 4 =>
          match load v1 arg true with
          | none => .memFault
          | some (x, v2) => .cont v2 _pc x
        | 5 =>
          match store v1 arg a cycles with
          | none => .memFault
          | some v2 => .cont v2 _pc a
        | 6 => if pc = arg then .halt v1 pc a else .cont v1 arg a
        | _ => .cont v1 (if a = 0 then arg else _pc) a

/-- Result of `run` (lfsr.c lines 45-70): `ok` is the normal return 0 after
the halt sentinel, with the machine state saved back (`v->pc = pc; v->a = a`,
lfsr.c lines 67-68); `err` is the `return -1` on a trace write failure, which
does not save the state; `memFault` as in `StepRes`; `fuelOut` reports the
in-flight state when the supplied fuel is exhausted (the C loop is
unbounded). -/
inductive RunRes where
  | ok (v : VM)
  | err (v : VM)
  | memFault
  | fuelOut (v : VM) (pc a : Nat)
deriving DecidableEq

/-- The loop of `run`, fuel-indexed; `cycles` is the loop counter of
lfsr.c line 48. -/
def runLoop (opts0 : Nat) : Nat → VM → Nat → Nat → Nat → RunRes
  | 0, v, pc, a, _ => .fuelOut v pc a
  | fuel + 1, v, pc, a, cycles =>
    match step opts0 v pc a cycles with
    | .cont v' pc' a' => runLoop opts0 fuel v' pc' a' (cycles + 1)
    | .halt v' pc' a' => .ok { v' with pc := pc', a := a' }
    | .traceErr v' => .err v'
    | .memFault => .memFault

/-- `run`, lfsr.c line 45.  Line 46 loads the machine state into locals:
both the working `pc` and the working accumulator `a` are initialised from
`v->pc` (the saved accumulator `v->a` is not read), and `opts` is copied. -/
def run (v : VM) (fuel : Nat) : RunRes :=
  runLoop v.opts fuel v (w16 v.pc) (w16 v.pc) 0

/-- Map the carried machine state of a step result to one whose `putRes`
field is replaced; used to state that the put callback's reported result
never influences a step. -/
def StepRes.setPutRes (r : Int) : StepRes → StepRes
  | .cont v p a => .cont { v with putRes := r } p a
  | .halt v p a => .halt { v with putRes := r } p a
  | .traceErr v => .traceErr { v with putRes := r }
  | .memFault => .memFault

/-- Map the carried machine state of a run result to one whose `putRes`
field is replaced. -/
def RunRes.setPutRes (r : Int) : RunRes → RunRes
  | .ok v => .ok { v with putRes := r }
  | .err v => .err { v with putRes := r }
  | .memFault => .memFault
  | .fuelOut v p a => .fuelOut { v with putRes := r } p a

/-- Map the carried machine state of a step result to one whose `a` field is
replaced; used to state that the saved accumulator never influences a step. -/
def StepRes.setA (x : Nat) : StepRes → StepRes
  | .cont v p a => .cont { v with a := x } p a
  | .halt v p a => .halt { v with a := x } p a
  | .traceErr v => .traceErr { v with a := x }
  | .memFault => .memFault

/-- Map the carried machine state of a run result to one whose `a` field is
replaced.  A normal return (`ok`) is unchanged because `run` overwrites
`v->a` with the working accumulator on the way out. -/
def RunRes.setA (x : Nat) : RunRes → RunRes
  | .ok v => .ok v
  | .err v => .err { v with a := x }
  | .memFault => .memFault
  | .fuelOut v p a => .fuelOut { v with a := x } p a

/-- The machine state carried by a run result, if any. -/
def RunRes.finalVM : RunRes → Option VM
  | .ok v => some v
  | .err v => some v
  | .memFault => none
  | .fuelOut v _ _ => some v

/-- Iterate a function on `Nat`: `iter f k s` applies `f` to `s` exactly `k`
times.  The inner match on `f s` only forces the intermediate state to a
numeral, so that evaluation by `decide` stays shallow; `iter_succ` below
recovers the usual recurrence. -/
def iter (f : Nat → Nat) : Nat → Nat → Nat
  | 0, s => s
  | k + 1, s =>
    match f s with
    | 0 => iter f k 0
    | t + 1 => iter f k (t + 1)

/-- The first `n` iterates `s, f s, f (f s), ...` of `f` on `s`, with the
same strictness device as `iter`; `orbit_succ` below recovers the usual
recurrence. -/
def orbit (f : Nat → Nat) : Nat → Nat → List Nat
  | 0, _ => []
  | k + 1, s =>
    match f s with
    | 0 => s :: orbit f k 0
    | t + 1 => s :: orbit f k (t + 1)

/-- One application of the sequencer in LFSR (non-increment) mode with the
canonical tap mask. -/
def lfsrStep (n : Nat) : Nat := lfsr n POLYNOMIAL false

/-- Relation between the machine state at the start of a run and a later
state of the same run, capturing the behaviour of the one-shot first-output
diagnostic: outputs only accumulate; once `OFIRST` is clear the diagnostic
trace never changes; and from a state with `OFIRST` pending and a debug sink,
either no output and no diagnostic has happened (and `OFIRST` is still
pending), or output has happened and exactly one diagnostic entry was
appended (and `OFIRST` was consumed). -/
def DiagInv (v w : VM) : Prop :=
  w.debug = v.debug ∧
  v.outp.length ≤ w.outp.length ∧
  (v.opts &&& OFIRST = 0 → w.diag = v.diag ∧ w.opts &&& OFIRST = 0) ∧
  (v.opts &&& OFIRST ≠ 0 → v.debug = true →
    (w.outp.length = v.outp.length ∧ w.diag = v.diag ∧ w.opts &&& OFIRST ≠ 0) ∨
    (v.outp.length < w.outp.length ∧ (∃ c, w.diag = v.diag ++ [c]) ∧
      w.opts &&& OFIRST = 0))

/-- Machine whose program is `JMP 0x100` at address 0: memory
`[0x6100, 0, ...]`, PC 0, options 0, no devices attached. -/
def cex2VM : VM :=
  { m := 0x6100 :: List.replicate 4095 0, pc := 0, a := 0, opts := 0,
    inp := [], outp := [], putRes := 0, diag := [], debug := false,
    traceOk := true }

/-- Machine whose program stores the accumulator to I/O address 0x8000
(indirect STORE through address 2) and then halts via `JMP 1` at address 1,
with `OLFSR` (increment mode) set and a put device that reports failure
(`putRes = -1`). -/
def cex3VM : VM :=
  { m := 0xD002 :: 0x6001 :: 0x8000 :: List.replicate 4093 0, pc := 0,
    a := 0, opts := OLFSR, inp := [], outp := [], putRes := -1, diag := [],
    debug := false, traceOk := true }

/-- Machine about to execute `JMPZ 5` (opcode 7, immediate 5) at address 0
with accumulator 0. -/
def cex5VM : VM :=
  { m := 0x7005 :: List.replicate 4095 0, pc := 0, a := 0, opts := 0,
    inp := [], outp := [], putRes := 0, diag := [], debug := false,
    traceOk := true }

/-- Machine in increment mode with a debug sink attached but `opts` taken as
`main` builds it apart from `OLFSR` - in particular `OFIRST` clear, exactly
as the zero-initialised `opts` of lfsr.c line 88.  Its program performs two
indirect STOREs to I/O address 0x8000 (at addresses 0 and 1, both loading
the target address from cell 3) and then halts via `JMP 2` at address 2. -/
def cex6VM : VM :=
  { m := 0xD003 :: 0xD003 :: 0x6002 :: 0x8000 :: List.replicate 4092 0,
    pc := 0, a := 0, opts := OLFSR, inp := [], outp := [], putRes := 0,
    diag := [], debug := true, traceOk := true }

/-- Same two-I/O-STORE program as `cex6VM`, but with `OFIRST` pending in
`opts` (options `OLFSR + OFIRST = 5`) and a debug sink attached. -/
def wit6VM : VM :=
  { m := 0xD003 :: 0xD003 :: 0x6002 :: 0x8000 :: List.replicate 4092 0,
    pc := 0, a := 0, opts := 5, inp := [], outp := [], putRes := 0,
    diag := [], debug := true, traceOk := true }

/-- Machine whose program is the single instruction `XOR 0` at address 0. -/
def wit2VM : VM :=
  { m := List.replicate 4096 0, pc := 0, a := 0, opts := 0,
    inp := [], outp := [], putRes := 0, diag := [], debug := false,
    traceOk := true }

/-- Machine whose program is `JMP 0` at address 0 (the halt sentinel). -/
def wit5VM : VM :=
  { m := 0x6000 :: List.replicate 4095 0, pc := 0, a := 0, opts := 0,
    inp := [], outp := [], putRes := 0, diag := [], debug := false,
    traceOk := true }

/-- Machine whose program is an indirect LOAD (opcode 4) through address 1,
which holds the I/O address 0x8000, with an exhausted input stream. -/
def wit10VM : VM :=
  { m := 0xC001 :: 0x8000 :: List.replicate 4094 0, pc := 0, a := 0,
    opts := 0, inp := [], outp := [], putRes := 0, diag := [],
    debug := false, traceOk := true }

/-! Basic facts about the bit-level operations used by the embedding. -/

theorem and255_eq_mod (x : Nat) : x &&& 255 = x % 256 := by
  have h := Nat.and_pow_two_sub_one_eq_mod x 8
  norm_num at h
  exact h

theorem and255_lt (x : Nat) : x &&& 255 < 256 := by
  have h := @Nat.and_le_right x 255
  omega

theorem w16_lt (x : Nat) : w16 x < 65536 := by
  have h : x % 65536 < 65536 := Nat.mod_lt x (by norm_num)
  simpa [w16] using h

/-- The sequencer always produces an 8-bit value, whatever its inputs. -/
theorem lfsr_lt (n pm : Nat) (add : Bool) : lfsr n pm add < 256 := by
  cases add <;> simp only [lfsr, PCMSK, if_true, if_false] <;> apply and255_lt

/-- C1: the sequencer `lfsr` is a pure total function that matches the
specification's contract `next_pc` exactly: in increment mode it returns
`(n + 1) mod 256`, otherwise it computes the feedback bit `n & 1`, shifts
right with zero fill, xors in the polynomial mask exactly when the feedback
was 1, and masks the result to 8 bits; in particular the result is always an
8-bit value. -/
theorem c1_lfsr_refines_next_pc :
    ∀ n polynomial_mask : Nat, ∀ add : Bool,
      lfsr n polynomial_mask add = next_pc n polynomial_mask add ∧
      lfsr n polynomial_mask add < 256 := by
  intro n pm add
  refine ⟨?_, lfsr_lt n pm add⟩
  cases add with
  | true =>
    simp only [lfsr, next_pc, PCMSK, if_true]
    exact and255_eq_mod (n + 1)
  | false =>
    simp only [lfsr, next_pc, PCMSK, Bool.false_eq_true, if_false]
    have h1 : n &&& 1 = n % 2 := Nat.and_one_is_mod n
    have h2 : n >>> 1 = n / 2 := by
      have h := Nat.shiftRight_eq_div_pow n 1
      simpa using h
    rw [h1, h2]
    rcases Nat.mod_two_eq_zero_or_one n with h | h <;>
      simp [h, and255_eq_mod]

/-! Iteration lemmas for the period analysis of the sequencer (claim C4). -/

theorem iter_succ (f : Nat → Nat) (k s : Nat) :
    iter f (k + 1) s = iter f k (f s) := by
  rcases h : f s with _ | t <;> simp [iter, h]

theorem orbit_succ (f : Nat → Nat) (k s : Nat) :
    orbit f (k + 1) s = s :: orbit f k (f s) := by
  rcases h : f s with _ | t <;> simp [orbit, h]

theorem iter_add (f : Nat → Nat) (a b s : Nat) :
    iter f (a + b) s = iter f b (iter f a s) := by
  induction a generalizing s with
  | zero => simp [iter]
  | succ a ih =>
    have h1 : a + 1 + b = (a + b) + 1 := by omega
    rw [h1, iter_succ, iter_succ, ih]

theorem orbit_length (f : Nat → Nat) : ∀ n s, (orbit f n s).length = n := by
  intro n
  induction n with
  | zero => intro s; simp [orbit]
  | succ n ih => intro s; rw [orbit_succ]; simp [ih]

theorem orbit_getElem? (f : Nat → Nat) :
    ∀ n s i, i < n → (orbit f n s)[i]? = some (iter f i s) := by
  intro n
  induction n with
  | zero => intro s i h; omega
  | succ n ih =>
    intro s i h
    rw [orbit_succ]
    cases i with
    | zero => simp [iter]
    | succ i =>
      have h' : i < n := by omega
      simp only [List.getElem?_cons_succ]
      rw [ih (f s) i h', iter_succ]

set_option maxRecDepth 2000 in
theorem lfsr_iter255 : iter lfsrStep 255 1 = 1 := by decide

set_option maxRecDepth 2000 in
theorem lfsr_orbit_nodup : (orbit lfsrStep 255 1).Nodup := by decide

set_option maxRecDepth 2000 in
theorem lfsr_orbit_mem_all :
    ∀ t, t < 256 → t ≠ 0 → t ∈ orbit lfsrStep 255 1 := by decide

theorem iter1_cycle (j : Nat) :
    iter lfsrStep (255 + j) 1 = iter lfsrStep j 1 := by
  rw [iter_add, lfsr_iter255]

theorem iter1_inj (i j : Nat) (hi : i < 255) (hj : j < 255)
    (hij : iter lfsrStep i 1 = iter lfsrStep j 1) : i = j := by
  have li : i < (orbit lfsrStep 255 1).length := by
    rw [orbit_length]; exact hi
  have lj : j < (orbit lfsrStep 255 1).length := by
    rw [orbit_length]; exact hj
  have gi := orbit_getElem? lfsrStep 255 1 i hi
  have gj := orbit_getElem? lfsrStep 255 1 j hj
  rw [List.getElem?_eq_getElem li] at gi
  rw [List.getElem?_eq_getElem lj] at gj
  have hg : (orbit lfsrStep 255 1).get ⟨i, li⟩ =
      (orbit lfsrStep 255 1).get ⟨j, lj⟩ := by
    rw [List.get_eq_getElem, List.get_eq_getElem]
    rw [Option.some.inj gi, Option.some.inj gj]; exact hij
  exact congrArg Fin.val ((lfsr_orbit_nodup.get_inj_iff).mp hg)

theorem exists_iter1_index (s : Nat) (hs : 0 < s) (hs2 : s < 256) :
    ∃ i, i < 255 ∧ iter lfsrStep i 1 = s := by
  have hmem := lfsr_orbit_mem_all s hs2 (by omega)
  rcases List.getElem_of_mem hmem with ⟨i, hi, hg⟩
  have hi' : i < 255 := by rw [orbit_length] at hi; exact hi
  have h := orbit_getElem? lfsrStep 255 1 i hi'
  rw [List.getElem?_eq_getElem hi] at h
  have h2 := Option.some.inj h
  exact ⟨i, hi', by rw [← h2, hg]⟩

/-- C4: with the canonical polynomial mask 0xB8 in LFSR (non-increment) mode,
the sequencer's state space is closed (every result is an 8-bit value), and
every non-zero 8-bit seed first returns to itself after exactly 255 steps,
visiting every one of the 255 non-zero 8-bit states before repeating. -/
theorem c4_lfsr_period :
    (∀ n polynomial_mask : Nat, ∀ add : Bool, lfsr n polynomial_mask add < 256) ∧
    ∀ s, 0 < s → s < 256 →
      iter lfsrStep 255 s = s ∧
      (∀ k, 0 < k → k < 255 → iter lfsrStep k s ≠ s) ∧
      (∀ t, 0 < t → t < 256 → ∃ i, i < 255 ∧ iter lfsrStep i s = t) := by
  refine ⟨fun n pm add => lfsr_lt n pm add, ?_⟩
  intro s hs hs2
  rcases exists_iter1_index s hs hs2 with ⟨i, hi, hieq⟩
  refine ⟨?_, ?_, ?_⟩
  · calc iter lfsrStep 255 s
        = iter lfsrStep 255 (iter lfsrStep i 1) := by rw [hieq]
      _ = iter lfsrStep (i + 255) 1 := (iter_add lfsrStep i 255 1).symm
      _ = iter lfsrStep (255 + i) 1 := by rw [Nat.add_comm]
      _ = iter lfsrStep i 1 := iter1_cycle i
      _ = s := hieq
  · intro k hk hk2 hcon
    have h1 : iter lfsrStep (i + k) 1 = iter lfsrStep i 1 := by
      calc iter lfsrStep (i + k) 1
          = iter lfsrStep k (iter lfsrStep i 1) := iter_add lfsrStep i k 1
        _ = iter lfsrStep k s := by rw [hieq]
        _ = s := hcon
        _ = iter lfsrStep i 1 := hieq.symm
    by_cases hlt : i + k < 255
    · have := iter1_inj (i + k) i hlt hi h1
      omega
    · have hj : i + k = 255 + (i + k - 255) := by omega
      have h2 : iter lfsrStep (i + k - 255) 1 = iter lfsrStep i 1 := by
        rw [← iter1_cycle (i + k - 255), ← hj]
        exact h1
      have hjlt : i + k - 255 < 255 := by omega
      have := iter1_inj (i + k - 255) i hjlt hi h2
      omega
  · intro t ht ht2
    rcases exists_iter1_index t ht ht2 with ⟨j, hjlt, hjeq⟩
    by_cases hij : i ≤ j
    · refine ⟨j - i, by omega, ?_⟩
      have hidx : i + (j - i) = j := by omega
      calc iter lfsrStep (j - i) s
          = iter lfsrStep (j - i) (iter lfsrStep i 1) := by rw [hieq]
        _ = iter lfsrStep (i + (j - i)) 1 := (iter_add lfsrStep i (j - i) 1).symm
        _ = iter lfsrStep j 1 := by rw [hidx]
        _ = t := hjeq
    · refine ⟨j + 255 - i, by omega, ?_⟩
      have hidx : i + (j + 255 - i) = 255 + j := by omega
      calc iter lfsrStep (j + 255 - i) s
          = iter lfsrStep (j + 255 - i) (iter lfsrStep i 1) := by rw [hieq]
        _ = iter lfsrStep (i + (j + 255 - i)) 1 :=
            (iter_add lfsrStep i (j + 255 - i) 1).symm
        _ = iter lfsrStep (255 + j) 1 := by rw [hidx]
        _ = iter lfsrStep j 1 := iter1_cycle j
        _ = t := hjeq

/-- Witness for C4 at the concrete seed 1. -/
theorem c4_lfsr_period_witness :
    ((0 : Nat) < 1 ∧ (1 : Nat) < 256) ∧ iter lfsrStep 255 1 = 1 :=
  ⟨⟨by decide, by decide⟩, (c4_lfsr_period.2 1 (by decide) (by decide)).1⟩

/-! Shape lemmas for the memory/device operations. -/

theorem mod_sz_lt (x : Nat) : x % SZ < SZ :=
  Nat.mod_lt x (by decide)

theorem mod_sz_and_8000 (addr : Nat) : addr % SZ &&& 0x8000 = 0 := by
  have h1 : addr % SZ < 4096 := by
    have h := mod_sz_lt addr
    simpa [SZ] using h
  have h3 := Nat.and_two_pow (addr % SZ) 15
  have h4 : (addr % SZ).testBit 15 = false :=
    Nat.testBit_lt_two_pow (lt_of_lt_of_le h1 (by norm_num))
  rw [h4] at h3
  norm_num at h3
  exact h3

theorem mod_sz_mod_sz (addr : Nat) : addr % SZ % SZ = addr % SZ := by
  simp [SZ]

theorem load_false_eq (v : VM) (addr : Nat) :
    load v addr false = (v.m.get? (addr % SZ)).map (fun x => (w16 x, v)) := by
  simp only [load]
  rw [if_neg (by simp)]
  cases hm : v.m.get? (addr % SZ) <;> simp [hm]

theorem fetchArg_some (v : VM) (ins : Nat) (hlen : v.m.length = SZ) :
    ∃ arg, fetchArg v ins = some (arg, v) := by
  by_cases h : ins &&& 0x8000 ≠ 0
  · have hmod : (ins &&& 0xFFF) % SZ < v.m.length := by
      rw [hlen]; exact mod_sz_lt _
    refine ⟨w16 (v.m.get ⟨(ins &&& 0xFFF) % SZ, hmod⟩), ?_⟩
    simp [fetchArg, h, load_false_eq, List.getElem?_eq_getElem hmod,
      List.get_eq_getElem]
  · exact ⟨ins &&& 0xFFF, by simp [fetchArg, h]⟩

theorem fetchArg_fst_lt (v v1 : VM) (ins arg : Nat)
    (h : fetchArg v ins = some (arg, v1)) : arg < 65536 := by
  by_cases hb : ins &&& 0x8000 ≠ 0
  · rw [fetchArg, if_pos hb, load_false_eq] at h
    cases hm : v.m.get? ((ins &&& 0xFFF) % SZ) with
    | none => rw [hm] at h; simp at h
    | some x =>
      rw [hm] at h
      simp only [Option.map_some'] at h
      have : arg = w16 x := by
        have := congrArg Prod.fst (Option.some.inj h)
        exact this.symm
      rw [this]; exact w16_lt x
  · rw [fetchArg, if_neg hb] at h
    have : arg = ins &&& 0xFFF := by
      have := congrArg Prod.fst (Option.some.inj h)
      exact this.symm
    have hle : ins &&& 0xFFF ≤ 0xFFF := Nat.and_le_right
    omega

theorem fetchArg_vm_eq (v v1 : VM) (ins arg : Nat)
    (h : fetchArg v ins = some (arg, v1)) : v1 = v := by
  by_cases hb : ins &&& 0x8000 ≠ 0
  · rw [fetchArg, if_pos hb, load_false_eq] at h
    cases hm : v.m.get? ((ins &&& 0xFFF) % SZ) with
    | none => rw [hm] at h; simp at h
    | some x =>
      rw [hm] at h
      have := congrArg Prod.snd (Option.some.inj h)
      exact this.symm
  · rw [fetchArg, if_neg hb] at h
    have := congrArg Prod.snd (Option.some.inj h)
    exact this.symm

theorem wit2VM_mlen : wit2VM.m.length = SZ := by
  show (List.replicate 4096 0).length = SZ
  rw [List.length_replicate]
  rfl

/-- C7: storing a 16-bit value at a non-I/O address and loading it back
(with or without the I/O flag) returns the value unchanged, and both
operations address the backing memory at the address reduced modulo the
capacity `SZ`, so out-of-range non-I/O addresses alias instead of
faulting. -/
theorem c7_store_load_roundtrip (v : VM) (addr val cyc : Nat) (io : Bool)
    (haddr : addr &&& 0x8000 = 0) (hlen : v.m.length = SZ)
    (hval : val < 65536) :
    store v addr val cyc = some { v with m := v.m.set (addr % SZ) val } ∧
    load { v with m := v.m.set (addr % SZ) val } addr io =
      some (val, { v with m := v.m.set (addr % SZ) val }) ∧
    load v addr io = load v (addr % SZ) io ∧
    store v addr val cyc = store v (addr % SZ) val cyc := by
  have hmod : addr % SZ < v.m.length := by rw [hlen]; exact mod_sz_lt addr
  refine ⟨?_, ?_, ?_, ?_⟩
  · simp [store, haddr, hmod]
  · have hget : (v.m.set (addr % SZ) val)[addr % SZ]? = some val :=
      List.getElem?_set_self hmod
    simp [load, haddr, hget, w16, Nat.mod_eq_of_lt hval]
  · simp [load, haddr, mod_sz_and_8000 addr, mod_sz_mod_sz addr]
  · simp [store, haddr, mod_sz_and_8000 addr, mod_sz_mod_sz addr]

/-- Witness for C7: store 123 at the aliasing non-I/O address 0x1005 of an
all-zero memory of capacity `SZ` and load it back. -/
theorem c7_store_load_roundtrip_witness :
    ((0x1005 : Nat) &&& 0x8000 = 0 ∧ wit2VM.m.length = SZ ∧
      (123 : Nat) < 65536) ∧
    load { wit2VM with m := wit2VM.m.set (0x1005 % SZ) 123 } 0x1005 true =
      some (123, { wit2VM with m := wit2VM.m.set (0x1005 % SZ) 123 }) :=
  ⟨⟨by decide, wit2VM_mlen, by decide⟩,
    (c7_store_load_roundtrip wit2VM 0x1005 123 0 true (by decide)
      wit2VM_mlen (by decide)).2.1⟩

/-! Characterisation of one executed step per opcode, under hypotheses
recording the fetched instruction, the computed operand, and that the trace
write (if any) succeeds. -/

theorem step_alu0 (opts0 : Nat) (v v1 : VM) (pc a cyc ins0 arg : Nat)
    (hfetch : v.m.get? (pc % SZ) = some ins0)
    (harg : fetchArg v (w16 ins0) = some (arg, v1))
    (htr : ¬(v1.debug = true ∧ v1.traceOk = false))
    (halu : (w16 ins0 >>> 12) &&& 0x7 = 0) :
    step opts0 v pc a cyc =
      .cont v1 (lfsr pc POLYNOMIAL (opts0 &&& OLFSR != 0)) (w16 (a ^^^ arg)) := by
  simp only [step, hfetch, harg, halu, if_neg htr]

theorem step_alu1 (opts0 : Nat) (v v1 : VM) (pc a cyc ins0 arg : Nat)
    (hfetch : v.m.get? (pc % SZ) = some ins0)
    (harg : fetchArg v (w16 ins0) = some (arg, v1))
    (htr : ¬(v1.debug = true ∧ v1.traceOk = false))
    (halu : (w16 ins0 >>> 12) &&& 0x7 = 1) :
    step opts0 v pc a cyc =
      .cont v1 (lfsr pc POLYNOMIAL (opts0 &&& OLFSR != 0)) (w16 (a &&& arg)) := by
  simp only [step, hfetch, harg, halu, if_neg htr]

theorem step_alu2 (opts0 : Nat) (v v1 : VM) (pc a cyc ins0 arg : Nat)
    (hfetch : v.m.get? (pc % SZ) = some ins0)
    (harg : fetchArg v (w16 ins0) = some (arg, v1))
    (htr : ¬(v1.debug = true ∧ v1.traceOk = false))
    (halu : (w16 ins0 >>> 12) &&& 0x7 = 2) :
    step opts0 v pc a cyc =
      .cont v1 (lfsr pc POLYNOMIAL (opts0 &&& OLFSR != 0))
        (if opts0 &&& OADD ≠ 0 then w16 (a + arg) else w16 (arg <<< 1)) := by
  simp only [step, hfetch, harg, halu, if_neg htr]

theorem step_alu3 (opts0 : Nat) (v v1 : VM) (pc a cyc ins0 arg : Nat)
    (hfetch : v.m.get? (pc % SZ) = some ins0)
    (harg : fetchArg v (w16 ins0) = some (arg, v1))
    (htr : ¬(v1.debug = true ∧ v1.traceOk = false))
    (halu : (w16 ins0 >>> 12) &&& 0x7 = 3) :
    step opts0 v pc a cyc =
      .cont v1 (lfsr pc POLYNOMIAL (opts0 &&& OLFSR != 0)) (w16 (arg >>> 1)) := by
  simp only [step, hfetch, harg, halu, if_neg htr]

theorem step_alu4 (opts0 : Nat) (v v1 v2 : VM) (pc a cyc ins0 arg x : Nat)
    (hfetch : v.m.get? (pc % SZ) = some ins0)
    (harg : fetchArg v (w16 ins0) = some (arg, v1))
    (htr : ¬(v1.debug = true ∧ v1.traceOk = false))
    (halu : (w16 ins0 >>> 12) &&& 0x7 = 4)
    (hload : load v1 arg true = some (x, v2)) :
    step opts0 v pc a cyc =
      .cont v2 (lfsr pc POLYNOMIAL (opts0 &&& OLFSR != 0)) x := by
  simp only [step, hfetch, harg, halu, if_neg htr, hload]

theorem step_alu5 (opts0 : Nat) (v v1 v2 : VM) (pc a cyc ins0 arg : Nat)
    (hfetch : v.m.get? (pc % SZ) = some ins0)
    (harg : fetchArg v (w16 ins0) = some (arg, v1))
    (htr : ¬(v1.debug = true ∧ v1.traceOk = false))
    (halu : (w16 ins0 >>> 12) &&& 0x7 = 5)
    (hstore : store v1 arg a cyc = some v2) :
    step opts0 v pc a cyc =
      .cont v2 (lfsr pc POLYNOMIAL (opts0 &&& OLFSR != 0)) a := by
  simp only [step, hfetch, harg, halu, if_neg htr, hstore]

theorem step_alu6_halt (opts0 : Nat) (v v1 : VM) (pc a cyc ins0 arg : Nat)
    (hfetch : v.m.get? (pc % SZ) = some ins0)
    (harg : fetchArg v (w16 ins0) = some (arg, v1))
    (htr : ¬(v1.debug = true ∧ v1.traceOk = false))
    (halu : (w16 ins0 >>> 12) &&& 0x7 = 6)
    (hpa : pc = arg) :
    step opts0 v pc a cyc = .halt v1 pc a := by
  simp only [step, hfetch, harg, halu, if_neg htr, if_pos hpa]

theorem step_alu6_jmp (opts0 : Nat) (v v1 : VM) (pc a cyc ins0 arg : Nat)
    (hfetch : v.m.get? (pc % SZ) = some ins0)
    (harg : fetchArg v (w16 ins0) = some (arg, v1))
    (htr : ¬(v1.debug = true ∧ v1.traceOk = false))
    (halu : (w16 ins0 >>> 12) &&& 0x7 = 6)
    (hpa : pc ≠ arg) :
    step opts0 v pc a cyc = .cont v1 arg a := by
  simp only [step, hfetch, harg, halu, if_neg htr, if_neg hpa]

theorem step_alu7 (opts0 : Nat) (v v1 : VM) (pc a cyc ins0 arg : Nat)
    (hfetch : v.m.get? (pc % SZ) = some ins0)
    (harg : fetchArg v (w16 ins0) = some (arg, v1))
    (htr : ¬(v1.debug = true ∧ v1.traceOk = false))
    (halu : (w16 ins0 >>> 12) &&& 0x7 = 7) :
    step opts0 v pc a cyc =
      .cont v1
        (if a = 0 then arg else lfsr pc POLYNOMIAL (opts0 &&& OLFSR != 0)) a := by
  simp only [step, hfetch, harg, halu, if_neg htr]

/-- C2 (amended): after a step that continues, the new program counter is
bounded by 16 bits always, and is at most 0xFF whenever the opcode is not JMP
and is not JMPZ-with-zero-accumulator; those two paths instead receive the
raw operand, which can exceed 0xFF. -/
theorem c2_pc_masked (opts0 : Nat) (v : VM) (pc a cyc ins0 : Nat) (v' : VM)
    (pc' a' : Nat)
    (hfetch : v.m.get? (pc % SZ) = some ins0)
    (hstep : step opts0 v pc a cyc = .cont v' pc' a') :
    pc' < 65536 ∧
    ((w16 ins0 >>> 12) &&& 0x7 ≠ 6 → ((w16 ins0 >>> 12) &&& 0x7 = 7 → a ≠ 0) →
      pc' ≤ 0xFF) := by
  simp only [step, hfetch] at hstep
  rcases hfa : fetchArg v (w16 ins0) with _ | ⟨arg, v1⟩
  · simp [hfa] at hstep
  · simp only [hfa] at hstep
    have hargl : arg < 65536 := fetchArg_fst_lt v v1 (w16 ins0) arg hfa
    have hlf : lfsr pc POLYNOMIAL (opts0 &&& OLFSR != 0) < 256 := lfsr_lt pc POLYNOMIAL _
    by_cases htr : v1.debug = true ∧ v1.traceOk = false
    · rw [if_pos htr] at hstep; simp at hstep
    · rw [if_neg htr] at hstep
      have hbound : (w16 ins0 >>> 12) &&& 0x7 ≤ 7 := Nat.and_le_right
      generalize halu : (w16 ins0 >>> 12) &&& 0x7 = alu at hstep hbound ⊢
      interval_cases alu
      · simp only [StepRes.cont.injEq] at hstep
        exact ⟨by omega, fun _ _ => by omega⟩
      · simp only [StepRes.cont.injEq] at hstep
        exact ⟨by omega, fun _ _ => by omega⟩
      · simp only [StepRes.cont.injEq] at hstep
        exact ⟨by omega, fun _ _ => by omega⟩
      · simp only [StepRes.cont.injEq] at hstep
        exact ⟨by omega, fun _ _ => by omega⟩
      · rcases hld : load v1 arg true with _ | ⟨x, v2⟩ <;> simp only [hld] at hstep
        · simp at hstep
        · simp only [StepRes.cont.injEq] at hstep
          exact ⟨by omega, fun _ _ => by omega⟩
      · rcases hst : store v1 arg a cyc with _ | v2 <;> simp only [hst] at hstep
        · simp at hstep
        · simp only [StepRes.cont.injEq] at hstep
          exact ⟨by omega, fun _ _ => by omega⟩
      · by_cases hpa : pc = arg
        · rw [if_pos hpa] at hstep; simp at hstep
        · rw [if_neg hpa] at hstep
          simp only [StepRes.cont.injEq] at hstep
          exact ⟨by omega, fun h _ => absurd rfl h⟩
      · simp only [StepRes.cont.injEq] at hstep
        by_cases ha : a = 0
        · rw [if_pos ha] at hstep
          exact ⟨by omega, fun _ h => absurd ha (h rfl)⟩
        · rw [if_neg ha] at hstep
          exact ⟨by omega, fun _ _ => by omega⟩

/-- C2 (counterexample): one executed step of the JMP-0x100 machine leaves
the program counter at 0x100, which exceeds 0xFF; PC is not masked to 8 bits
after a JMP. -/
theorem c2_pc_masked_counterexample :
    run cex2VM 1 = .fuelOut cex2VM 0x100 0 ∧ ¬((0x100 : Nat) ≤ 0xFF) :=
  ⟨rfl, by decide⟩

/-- Witness for C2 (amended) at a concrete XOR step. -/
theorem c2_pc_masked_witness :
    (wit2VM.m.get? (0 % SZ) = some 0 ∧
      step 0 wit2VM 0 0 0 = .cont wit2VM 0 0) ∧
    ((0 : Nat) < 65536 ∧
      ((w16 0 >>> 12) &&& 0x7 ≠ 6 → ((w16 0 >>> 12) &&& 0x7 = 7 → (0 : Nat) ≠ 0) →
        (0 : Nat) ≤ 0xFF)) :=
  ⟨⟨rfl, by rfl⟩, c2_pc_masked 0 wit2VM 0 0 0 0 wit2VM 0 0 rfl (by rfl)⟩

/-- C10: a LOAD opcode reading from an I/O address (bit 15 set) while the
input device is at end of stream sets the accumulator to 0xFFFF (the device's
-1 truncated to 16 bits) and continues as a normal step: the PC advances
through the sequencer and no halt or fault occurs. -/
theorem c10_load_eof (opts0 : Nat) (v v1 : VM) (pc a cyc ins0 arg : Nat)
    (hfetch : v.m.get? (pc % SZ) = some ins0)
    (halu : (w16 ins0 >>> 12) &&& 0x7 = 4)
    (harg : fetchArg v (w16 ins0) = some (arg, v1))
    (hio : arg &&& 0x8000 ≠ 0)
    (hinp : v1.inp = [])
    (htr : ¬(v1.debug = true ∧ v1.traceOk = false)) :
    step opts0 v pc a cyc =
      .cont v1 (lfsr pc POLYNOMIAL (opts0 &&& OLFSR != 0)) 0xFFFF := by
  have hload : load v1 arg true = some (0xFFFF, v1) := by
    simp [load, hio, vmGet, hinp]
  exact step_alu4 opts0 v v1 v1 pc a cyc ins0 arg 0xFFFF hfetch harg htr halu hload

/-- Witness for C10 at the concrete indirect LOAD machine with empty input. -/
theorem c10_load_eof_witness :
    (wit10VM.m.get? (0 % SZ) = some 0xC001 ∧
      fetchArg wit10VM (w16 0xC001) = some (0x8000, wit10VM) ∧
      wit10VM.inp = []) ∧
    step 0 wit10VM 0 0 0 =
      .cont wit10VM (lfsr 0 POLYNOMIAL ((0 : Nat) &&& OLFSR != 0)) 0xFFFF :=
  ⟨⟨rfl, rfl, rfl⟩,
    c10_load_eof 0 wit10VM wit10VM 0 0 0 0xC001 0x8000 rfl (by decide) rfl
      (by decide) rfl (by decide)⟩

/-- C5 (amended): a JMP whose operand equals the fetch PC makes the run
return 0 on that step, saving the pre-halt PC and accumulator into the
machine state; a JMP whose operand differs sets PC to the operand.  JMP is
however not the only opcode path that writes a non-sequencer value into PC:
exactly the JMP path and the JMPZ path with zero accumulator can do so. -/
theorem c5_halt_sentinel :
    (∀ opts0 : Nat, ∀ v v1 : VM, ∀ pc a cyc fuel ins0 arg : Nat,
      v.m.get? (pc % SZ) = some ins0 →
      (w16 ins0 >>> 12) &&& 0x7 = 6 →
      fetchArg v (w16 ins0) = some (arg, v1) →
      ¬(v1.debug = true ∧ v1.traceOk = false) →
      (arg = pc →
        runLoop opts0 (fuel + 1) v pc a cyc = .ok { v1 with pc := pc, a := a }) ∧
      (arg ≠ pc → step opts0 v pc a cyc = .cont v1 arg a)) ∧
    (∀ opts0 : Nat, ∀ v : VM, ∀ pc a cyc ins0 : Nat, ∀ v' : VM, ∀ pc' a' : Nat,
      v.m.get? (pc % SZ) = some ins0 →
      step opts0 v pc a cyc = .cont v' pc' a' →
      pc' ≠ lfsr pc POLYNOMIAL (opts0 &&& OLFSR != 0) →
      (w16 ins0 >>> 12) &&& 0x7 = 6 ∨ ((w16 ins0 >>> 12) &&& 0x7 = 7 ∧ a = 0)) := by
  constructor
  · intro opts0 v v1 pc a cyc fuel ins0 arg hfetch halu harg htr
    constructor
    · intro hap
      have hstep := step_alu6_halt opts0 v v1 pc a cyc ins0 arg hfetch harg htr
        halu hap.symm
      simp only [runLoop, hstep]
    · intro hap
      exact step_alu6_jmp opts0 v v1 pc a cyc ins0 arg hfetch harg htr halu
        (fun h => hap h.symm)
  · intro opts0 v pc a cyc ins0 v' pc' a' hfetch hstep hne
    simp only [step, hfetch] at hstep
    rcases hfa : fetchArg v (w16 ins0) with _ | ⟨arg, v1⟩
    · simp [hfa] at hstep
    · simp only [hfa] at hstep
      by_cases htr : v1.debug = true ∧ v1.traceOk = false
      · rw [if_pos htr] at hstep; simp at hstep
      · rw [if_neg htr] at hstep
        have hbound : (w16 ins0 >>> 12) &&& 0x7 ≤ 7 := Nat.and_le_right
        generalize halu : (w16 ins0 >>> 12) &&& 0x7 = alu at hstep hbound ⊢
        interval_cases alu
        · simp only [StepRes.cont.injEq] at hstep
          exact absurd hstep.2.1.symm hne
        · simp only [StepRes.cont.injEq] at hstep
          exact absurd hstep.2.1.symm hne
        · simp only [StepRes.cont.injEq] at hstep
          exact absurd hstep.2.1.symm hne
        · simp only [StepRes.cont.injEq] at hstep
          exact absurd hstep.2.1.symm hne
        · rcases hld : load v1 arg true with _ | ⟨x, v2⟩ <;> simp only [hld] at hstep
          · simp at hstep
          · simp only [StepRes.cont.injEq] at hstep
            exact absurd hstep.2.1.symm hne
        · rcases hst : store v1 arg a cyc with _ | v2 <;> simp only [hst] at hstep
          · simp at hstep
          · simp only [StepRes.cont.injEq] at hstep
            exact absurd hstep.2.1.symm hne
        · exact Or.inl rfl
        · by_cases ha : a = 0
          · exact Or.inr ⟨rfl, ha⟩
          · rw [if_neg ha] at hstep
            simp only [StepRes.cont.injEq] at hstep
            exact absurd hstep.2.1.symm hne

/-- C5 (counterexample): a JMPZ step with zero accumulator also assigns PC a
value outside the LFSR sequence, so JMP is not the only such opcode path. -/
theorem c5_halt_sentinel_counterexample :
    step 0 cex5VM 0 0 0 = .cont cex5VM 5 0 ∧
    (w16 0x7005 >>> 12) &&& 0x7 ≠ 6 ∧
    (5 : Nat) ≠ lfsr 0 POLYNOMIAL false ∧ (5 : Nat) ≠ lfsr 0 POLYNOMIAL true ∧
    cex5VM.m.get? (0 % SZ) = some 0x7005 :=
  ⟨rfl, by decide, by decide, by decide, rfl⟩

/-- Witness for C5 (amended): the machine whose first instruction is `JMP 0`
halts on its first step with PC 0 and accumulator 7 saved. -/
theorem c5_halt_sentinel_witness :
    (wit5VM.m.get? (0 % SZ) = some 0x6000 ∧
      fetchArg wit5VM (w16 0x6000) = some (0, wit5VM)) ∧
    runLoop 0 (0 + 1) wit5VM 0 7 0 = .ok { wit5VM with pc := 0, a := 7 } :=
  ⟨⟨rfl, rfl⟩,
    (c5_halt_sentinel.1 0 wit5VM wit5VM 0 7 0 0 0x6000 0 rfl (by decide) rfl
      (by decide)).1 rfl⟩

/-! Frame lemmas: the put callback's reported result (`putRes`) and the
saved accumulator field (`a`) are never read by the loop, so every operation
commutes with replacing them. -/

theorem vmGet_putRes (v : VM) (r : Int) :
    vmGet { v with putRes := r } =
      ((vmGet v).1, { (vmGet v).2 with putRes := r }) := by
  cases hv : v.inp <;> simp [vmGet, hv]

theorem load_putRes (v : VM) (r : Int) (addr : Nat) (io : Bool) :
    load { v with putRes := r } addr io =
      (load v addr io).map (fun p => (p.1, { p.2 with putRes := r })) := by
  by_cases h : io = true ∧ addr &&& 0x8000 ≠ 0
  · simp [load, h, vmGet_putRes]
  · simp only [load, if_neg h]
    cases hm : v.m.get? (addr % SZ) <;> simp [hm]

theorem store_putRes (v : VM) (r : Int) (addr val cyc : Nat) :
    store { v with putRes := r } addr val cyc =
      (store v addr val cyc).map (fun u => { u with putRes := r }) := by
  by_cases hio : addr &&& 0x8000 ≠ 0
  · by_cases hof : v.opts &&& OFIRST ≠ 0
    · cases hdbg : v.debug <;> simp [store, hio, hof, hdbg]
    · simp [store, hio, hof]
  · by_cases hlen : addr % SZ < v.m.length
    · simp [store, hio, hlen]
    · simp [store, hio, hlen]

theorem fetchArg_putRes (v : VM) (r : Int) (ins : Nat) :
    fetchArg { v with putRes := r } ins =
      (fetchArg v ins).map (fun p => (p.1, { p.2 with putRes := r })) := by
  by_cases h : ins &&& 0x8000 ≠ 0 <;> simp [fetchArg, h, load_putRes]

theorem step_putRes (opts0 : Nat) (v : VM) (r : Int) (pc a cyc : Nat) :
    step opts0 { v with putRes := r } pc a cyc =
      (step opts0 v pc a cyc).setPutRes r := by
  simp only [step]
  cases hm : v.m.get? (pc % SZ) with
  | none => simp [hm, StepRes.setPutRes]
  | some ins0 =>
    simp only [hm, fetchArg_putRes]
    cases hfa : fetchArg v (w16 ins0) with
    | none => simp [hfa, StepRes.setPutRes]
    | some p =>
      obtain ⟨arg, v1⟩ := p
      simp only [hfa, Option.map_some']
      by_cases htr : v1.debug = true ∧ v1.traceOk = false
      · simp [htr, StepRes.setPutRes]
      · simp only [if_neg htr]
        have hbound : (w16 ins0 >>> 12) &&& 0x7 ≤ 7 := Nat.and_le_right
        generalize halu : (w16 ins0 >>> 12) &&& 0x7 = alu at hbound ⊢
        interval_cases alu
        · simp [StepRes.setPutRes]
        · simp [StepRes.setPutRes]
        · simp [StepRes.setPutRes]
        · simp [StepRes.setPutRes]
        · rw [load_putRes]
          cases hld : load v1 arg true with
          | none => simp [StepRes.setPutRes]
          | some q =>
            obtain ⟨x, v2⟩ := q
            simp [StepRes.setPutRes]
        · rw [store_putRes]
          cases hst : store v1 arg a cyc <;> simp [StepRes.setPutRes]
        · by_cases hpa : pc = arg <;> simp [hpa, StepRes.setPutRes]
        · by_cases ha : a = 0 <;> simp [ha, StepRes.setPutRes]

theorem runLoop_putRes (opts0 fuel : Nat) :
    ∀ (v : VM) (r : Int) (pc a cyc : Nat),
      runLoop opts0 fuel { v with putRes := r } pc a cyc =
        (runLoop opts0 fuel v pc a cyc).setPutRes r := by
  induction fuel with
  | zero => intro v r pc a cyc; rfl
  | succ fuel ih =>
    intro v r pc a cyc
    simp only [runLoop, step_putRes]
    cases hs : step opts0 v pc a cyc with
    | cont v' p' a' => exact ih v' r p' a' (cyc + 1)
    | halt v' p' a' => rfl
    | traceErr v' => rfl
    | memFault => rfl

/-- C3 (amended): the output device's reported result is discarded by
`store` (the C code reads `(void)v->put(v->out, val)`), so a put failure
does not propagate, is not retried, and never aborts the run: the entire
run result is the same function of the machine state whatever `putRes` is.
Only a debug-trace write failure produces the non-zero (`err`) result. -/
theorem c3_put_failure_ignored :
    ∀ (v : VM) (r : Int) (fuel : Nat),
      run { v with putRes := r } fuel = (run v fuel).setPutRes r := by
  intro v r fuel
  simp only [run]
  exact runLoop_putRes v.opts fuel v r (w16 v.pc) (w16 v.pc) 0

/-- C3 (counterexample): a run whose put device reports failure
(`putRes = -1`) during the I/O STORE of its first instruction still halts
normally with result 0 (`ok`), not a non-zero result: the failure does not
propagate. -/
theorem c3_put_failure_ignored_counterexample :
    run cex3VM 2 = .ok { cex3VM with pc := 1, a := 0, outp := [0] } ∧
    cex3VM.putRes = -1 :=
  ⟨by rfl, rfl⟩

theorem vmGet_setA (v : VM) (x : Nat) :
    vmGet { v with a := x } = ((vmGet v).1, { (vmGet v).2 with a := x }) := by
  cases hv : v.inp <;> simp [vmGet, hv]

theorem load_setA (v : VM) (x : Nat) (addr : Nat) (io : Bool) :
    load { v with a := x } addr io =
      (load v addr io).map (fun p => (p.1, { p.2 with a := x })) := by
  by_cases h : io = true ∧ addr &&& 0x8000 ≠ 0
  · simp [load, h, vmGet_setA]
  · simp only [load, if_neg h]
    cases hm : v.m.get? (addr % SZ) <;> simp [hm]

theorem store_setA (v : VM) (x : Nat) (addr val cyc : Nat) :
    store { v with a := x } addr val cyc =
      (store v addr val cyc).map (fun u => { u with a := x }) := by
  by_cases hio : addr &&& 0x8000 ≠ 0
  · by_cases hof : v.opts &&& OFIRST ≠ 0
    · cases hdbg : v.debug <;> simp [store, hio, hof, hdbg]
    · simp [store, hio, hof]
  · by_cases hlen : addr % SZ < v.m.length
    · simp [store, hio, hlen]
    · simp [store, hio, hlen]

theorem fetchArg_setA (v : VM) (x : Nat) (ins : Nat) :
    fetchArg { v with a := x } ins =
      (fetchArg v ins).map (fun p => (p.1, { p.2 with a := x })) := by
  by_cases h : ins &&& 0x8000 ≠ 0 <;> simp [fetchArg, h, load_setA]

theorem step_setA (opts0 : Nat) (v : VM) (x : Nat) (pc a cyc : Nat) :
    step opts0 { v with a := x } pc a cyc = (step opts0 v pc a cyc).setA x := by
  simp only [step]
  cases hm : v.m.get? (pc % SZ) with
  | none => simp [hm, StepRes.setA]
  | some ins0 =>
    simp only [hm, fetchArg_setA]
    cases hfa : fetchArg v (w16 ins0) with
    | none => simp [hfa, StepRes.setA]
    | some p =>
      obtain ⟨arg, v1⟩ := p
      simp only [hfa, Option.map_some']
      by_cases htr : v1.debug = true ∧ v1.traceOk = false
      · simp [htr, StepRes.setA]
      · simp only [if_neg htr]
        have hbound : (w16 ins0 >>> 12) &&& 0x7 ≤ 7 := Nat.and_le_right
        generalize halu : (w16 ins0 >>> 12) &&& 0x7 = alu at hbound ⊢
        interval_cases alu
        · simp [StepRes.setA]
        · simp [StepRes.setA]
        · simp [StepRes.setA]
        · simp [StepRes.setA]
        · rw [load_setA]
          cases hld : load v1 arg true with
          | none => simp [StepRes.setA]
          | some q =>
            obtain ⟨y, v2⟩ := q
            simp [StepRes.setA]
        · rw [store_setA]
          cases hst : store v1 arg a cyc <;> simp [StepRes.setA]
        · by_cases hpa : pc = arg <;> simp [hpa, StepRes.setA]
        · by_cases ha : a = 0 <;> simp [ha, StepRes.setA]

theorem runLoop_setA (opts0 fuel : Nat) :
    ∀ (v : VM) (x : Nat) (pc a cyc : Nat),
      runLoop opts0 fuel { v with a := x } pc a cyc =
        RunRes.setA x (runLoop opts0 fuel v pc a cyc) := by
  induction fuel with
  | zero => intro v x pc a cyc; rfl
  | succ fuel ih =>
    intro v x pc a cyc
    simp only [runLoop, step_setA]
    cases hs : step opts0 v pc a cyc with
    | cont v' p' a' => exact ih v' x p' a' (cyc + 1)
    | halt v' p' a' => rfl
    | traceErr v' => rfl
    | memFault => rfl

/-- C8: `run` initialises its working accumulator from the saved program
counter `v->pc`, not from the saved accumulator `v->a` (lfsr.c line 46), and
the saved accumulator never influences the run: replacing it yields the same
run result (up to that untouched field; a normal `ok` result, which
overwrites `v->a` on the way out, is identical). -/
theorem c8_accumulator_from_pc :
    ∀ (v : VM) (x : Nat) (fuel : Nat),
      run { v with a := x } fuel = RunRes.setA x (run v fuel) ∧
      run v fuel = runLoop v.opts fuel v (w16 v.pc) (w16 v.pc) 0 := by
  intro v x fuel
  refine ⟨?_, rfl⟩
  simp only [run]
  exact runLoop_setA v.opts fuel v x (w16 v.pc) (w16 v.pc) 0

/-! No memory access of the loop can fault when the memory has its declared
capacity (claim C9). -/

theorem vmGet_m (v : VM) : (vmGet v).2.m = v.m := by
  cases hv : v.inp <;> simp [vmGet, hv]

theorem mem_access_isSome (m : List Nat) (addr : Nat) (hlen : m.length = SZ) :
    (m.get? (addr % SZ)).isSome = true := by
  have h : addr % SZ < m.length := by rw [hlen]; exact mod_sz_lt addr
  rw [List.get?_eq_getElem?, List.getElem?_eq_getElem h]
  rfl

theorem load_isSome (v : VM) (addr : Nat) (io : Bool) (hlen : v.m.length = SZ) :
    (load v addr io).isSome = true := by
  by_cases h : io = true ∧ addr &&& 0x8000 ≠ 0
  · simp [load, h]
  · have hmod : addr % SZ < v.m.length := by rw [hlen]; exact mod_sz_lt addr
    simp [load, h, List.get?_eq_getElem?, List.getElem?_eq_getElem hmod]

theorem load_m_eq (v v2 : VM) (addr x : Nat) (io : Bool)
    (h : load v addr io = some (x, v2)) : v2.m = v.m := by
  by_cases hb : io = true ∧ addr &&& 0x8000 ≠ 0
  · rw [load, if_pos hb] at h
    simp only [Option.some.injEq, Prod.mk.injEq] at h
    rw [← h.2]
    exact vmGet_m v
  · rw [load, if_neg hb] at h
    cases hm : v.m.get? (addr % SZ) with
    | none => rw [hm] at h; simp at h
    | some y =>
      rw [hm] at h
      simp only [Option.some.injEq, Prod.mk.injEq] at h
      rw [← h.2]

theorem store_isSome (v : VM) (addr val cyc : Nat) (hlen : v.m.length = SZ) :
    (store v addr val cyc).isSome = true := by
  by_cases hio : addr &&& 0x8000 ≠ 0
  · simp [store, hio]
  · have hmod : addr % SZ < v.m.length := by rw [hlen]; exact mod_sz_lt addr
    simp [store, hio, hmod]

/-- Shape of an I/O store with the first-output diagnostic still pending and
a debug sink attached: the marker is cleared, the cycle count is appended to
the diagnostic trace, and the value goes to the output device. -/
theorem store_io_first (v : VM) (addr val cyc : Nat) (hio : addr &&& 0x8000 ≠ 0)
    (hof : v.opts &&& OFIRST ≠ 0) (hdbg : v.debug = true) :
    store v addr val cyc =
      some { v with opts := v.opts &&& 0xFFFB, diag := v.diag ++ [cyc],
                    outp := v.outp ++ [val] } := by
  simp [store, hio, hof, hdbg]

/-- Shape of an I/O store with the marker pending but no debug sink: the
marker is still consumed, but nothing is emitted. -/
theorem store_io_first_nodbg (v : VM) (addr val cyc : Nat)
    (hio : addr &&& 0x8000 ≠ 0) (hof : v.opts &&& OFIRST ≠ 0)
    (hdbg : v.debug = false) :
    store v addr val cyc =
      some { v with opts := v.opts &&& 0xFFFB, outp := v.outp ++ [val] } := by
  simp [store, hio, hof, hdbg]

/-- Shape of an I/O store with the marker already consumed: only the output
happens. -/
theorem store_io_nofirst (v : VM) (addr val cyc : Nat)
    (hio : addr &&& 0x8000 ≠ 0) (hof : v.opts &&& OFIRST = 0) :
    store v addr val cyc = some { v with outp := v.outp ++ [val] } := by
  simp [store, hio, hof]

theorem store_m_len (v v2 : VM) (addr val cyc : Nat)
    (h : store v addr val cyc = some v2) (hlen : v.m.length = SZ) :
    v2.m.length = SZ := by
  by_cases hio : addr &&& 0x8000 ≠ 0
  · by_cases hof : v.opts &&& OFIRST ≠ 0
    · cases hdbg : v.debug with
      | true =>
        rw [store_io_first v addr val cyc hio hof hdbg] at h
        rw [← Option.some.inj h]
        exact hlen
      | false =>
        rw [store_io_first_nodbg v addr val cyc hio hof hdbg] at h
        rw [← Option.some.inj h]
        exact hlen
    · have hof2 : v.opts &&& OFIRST = 0 := by omega
      rw [store_io_nofirst v addr val cyc hio hof2] at h
      rw [← Option.some.inj h]
      exact hlen
  · by_cases hmod : addr % SZ < v.m.length
    · rw [store, if_neg hio, if_pos hmod] at h
      rw [← Option.some.inj h]
      simp [hlen]
    · rw [store, if_neg hio, if_neg hmod] at h
      simp at h

theorem step_no_memFault (opts0 : Nat) (v : VM) (pc a cyc : Nat)
    (hlen : v.m.length = SZ) :
    step opts0 v pc a cyc ≠ .memFault ∧
    (∀ v' p' a', step opts0 v pc a cyc = .cont v' p' a' → v'.m.length = SZ) := by
  rcases Option.isSome_iff_exists.mp (mem_access_isSome v.m pc hlen) with ⟨ins0, hm⟩
  rcases fetchArg_some v (w16 ins0) hlen with ⟨arg, hfa⟩
  simp only [step, hm, hfa]
  by_cases htr : v.debug = true ∧ v.traceOk = false
  · rw [if_pos htr]
    exact ⟨by simp, fun v' p' a' h => by simp at h⟩
  · rw [if_neg htr]
    have hbound : (w16 ins0 >>> 12) &&& 0x7 ≤ 7 := Nat.and_le_right
    generalize halu : (w16 ins0 >>> 12) &&& 0x7 = alu at hbound ⊢
    interval_cases alu
    · exact ⟨by simp, fun v' p' a' h => by
        simp only [StepRes.cont.injEq] at h; rw [← h.1]; exact hlen⟩
    · exact ⟨by simp, fun v' p' a' h => by
        simp only [StepRes.cont.injEq] at h; rw [← h.1]; exact hlen⟩
    · exact ⟨by simp, fun v' p' a' h => by
        simp only [StepRes.cont.injEq] at h; rw [← h.1]; exact hlen⟩
    · exact ⟨by simp, fun v' p' a' h => by
        simp only [StepRes.cont.injEq] at h; rw [← h.1]; exact hlen⟩
    · rcases Option.isSome_iff_exists.mp (load_isSome v arg true hlen) with ⟨q, hld⟩
      obtain ⟨x, v2⟩ := q
      rw [hld]
      have hm2 : v2.m = v.m := load_m_eq v v2 arg x true hld
      exact ⟨by simp, fun v' p' a' h => by
        simp only [StepRes.cont.injEq] at h
        rw [← h.1, hm2]; exact hlen⟩
    · rcases Option.isSome_iff_exists.mp (store_isSome v arg a cyc hlen) with ⟨v2, hst⟩
      rw [hst]
      have hm2 : v2.m.length = SZ := store_m_len v v2 arg a cyc hst hlen
      exact ⟨by simp, fun v' p' a' h => by
        simp only [StepRes.cont.injEq] at h
        rw [← h.1]; exact hm2⟩
    · by_cases hpa : pc = arg
      · rw [if_pos hpa]
        exact ⟨by simp, fun v' p' a' h => by simp at h⟩
      · rw [if_neg hpa]
        exact ⟨by simp, fun v' p' a' h => by
          simp only [StepRes.cont.injEq] at h; rw [← h.1]; exact hlen⟩
    · exact ⟨by simp, fun v' p' a' h => by
        simp only [StepRes.cont.injEq] at h; rw [← h.1]; exact hlen⟩

/-- C9: every backing-memory access of the loop indexes the memory at the
address reduced modulo the capacity `SZ`, so the access is always within
bounds (`isSome`), and a run over a memory of capacity `SZ` can never reach
the out-of-bounds fault outcome, whatever the PC, the instruction stream, or
the fuel. -/
theorem c9_no_mem_fault :
    (∀ (m : List Nat) (addr : Nat), m.length = SZ →
      (m.get? (addr % SZ)).isSome = true) ∧
    (∀ fuel opts0 : Nat, ∀ v : VM, ∀ pc a cyc : Nat, v.m.length = SZ →
      runLoop opts0 fuel v pc a cyc ≠ .memFault) := by
  refine ⟨fun m addr h => mem_access_isSome m addr h, ?_⟩
  intro fuel
  induction fuel with
  | zero =>
    intro opts0 v pc a cyc hlen
    simp [runLoop]
  | succ fuel ih =>
    intro opts0 v pc a cyc hlen
    rcases step_no_memFault opts0 v pc a cyc hlen with ⟨hnf, hpres⟩
    simp only [runLoop]
    cases hs : step opts0 v pc a cyc with
    | cont v' p' a' => exact ih opts0 v' p' a' (cyc + 1) (hpres v' p' a' hs)
    | halt v' p' a' => simp
    | traceErr v' => simp
    | memFault => exact absurd hs hnf

/-- Witness for C9 on the all-zero memory of capacity `SZ`. -/
theorem c9_no_mem_fault_witness :
    (wit2VM.m.length = SZ ∧ (wit2VM.m.get? (70000 % SZ)).isSome = true) ∧
    runLoop 0 1 wit2VM 0 0 0 ≠ .memFault :=
  ⟨⟨wit2VM_mlen, c9_no_mem_fault.1 wit2VM.m 70000 wit2VM_mlen⟩,
    c9_no_mem_fault.2 1 0 wit2VM 0 0 0 wit2VM_mlen⟩

/-! The one-shot first-output diagnostic (claim C6). -/

theorem and_fffb_ofirst (x : Nat) : (x &&& 0xFFFB) &&& OFIRST = 0 := by
  rw [Nat.and_assoc]
  have h : (0xFFFB : Nat) &&& OFIRST = 0 := by decide
  rw [h, Nat.and_zero]

theorem diagInv_rfl (v : VM) : DiagInv v v :=
  ⟨rfl, Nat.le_refl _, fun h0 => ⟨rfl, h0⟩, fun hof _ => Or.inl ⟨rfl, rfl, hof⟩⟩

theorem diagInv_of_eq (v w : VM) (h1 : w.outp = v.outp) (h2 : w.diag = v.diag)
    (h3 : w.opts = v.opts) (h4 : w.debug = v.debug) : DiagInv v w :=
  ⟨h4, le_of_eq (by rw [h1]), fun h0 => ⟨h2, by rw [h3]; exact h0⟩,
    fun hof _ => Or.inl ⟨by rw [h1], h2, by rw [h3]; exact hof⟩⟩

theorem diagInv_trans (u v w : VM) (h1 : DiagInv u v) (h2 : DiagInv v w) :
    DiagInv u w := by
  obtain ⟨d1, l1, z1, f1⟩ := h1
  obtain ⟨d2, l2, z2, f2⟩ := h2
  refine ⟨d2.trans d1, l1.trans l2, ?_, ?_⟩
  · intro h0
    rcases z1 h0 with ⟨e1, o1⟩
    rcases z2 o1 with ⟨e2, o2⟩
    exact ⟨e2.trans e1, o2⟩
  · intro hof hdbg
    rcases f1 hof hdbg with ⟨e1, e2, o1⟩ | ⟨lt1, ⟨c1, e1⟩, o1⟩
    · have hdbg2 : v.debug = true := by rw [d1]; exact hdbg
      rcases f2 o1 hdbg2 with ⟨e3, e4, o2⟩ | ⟨lt2, ⟨c2, e3⟩, o2⟩
      · exact Or.inl ⟨e3.trans e1, e4.trans e2, o2⟩
      · exact Or.inr ⟨by omega, ⟨c2, by rw [e3, e2]⟩, o2⟩
    · rcases z2 o1 with ⟨e3, o2⟩
      exact Or.inr ⟨Nat.lt_of_lt_of_le lt1 l2, ⟨c1, e3.trans e1⟩, o2⟩

theorem load_fields (v v2 : VM) (addr x : Nat) (io : Bool)
    (h : load v addr io = some (x, v2)) :
    v2.outp = v.outp ∧ v2.diag = v.diag ∧ v2.opts = v.opts ∧
      v2.debug = v.debug := by
  by_cases hb : io = true ∧ addr &&& 0x8000 ≠ 0
  · rw [load, if_pos hb] at h
    simp only [Option.some.injEq, Prod.mk.injEq] at h
    rw [← h.2]
    cases hv : v.inp <;> simp [vmGet, hv]
  · rw [load, if_neg hb] at h
    cases hm : v.m.get? (addr % SZ) with
    | none => rw [hm] at h; simp at h
    | some y =>
      rw [hm] at h
      simp only [Option.some.injEq, Prod.mk.injEq] at h
      rw [← h.2]
      exact ⟨rfl, rfl, rfl, rfl⟩

theorem store_diagInv (v w : VM) (addr val cyc : Nat)
    (h : store v addr val cyc = some w) : DiagInv v w := by
  by_cases hio : addr &&& 0x8000 ≠ 0
  · by_cases hof : v.opts &&& OFIRST ≠ 0
    · cases hdbg : v.debug with
      | true =>
        rw [store_io_first v addr val cyc hio hof hdbg] at h
        rw [← Option.some.inj h]
        refine ⟨rfl, by simp, fun h0 => absurd h0 hof, fun _ _ => Or.inr ?_⟩
        exact ⟨by simp, ⟨cyc, rfl⟩, and_fffb_ofirst v.opts⟩
      | false =>
        rw [store_io_first_nodbg v addr val cyc hio hof hdbg] at h
        rw [← Option.some.inj h]
        refine ⟨rfl, by simp, fun h0 => absurd h0 hof, fun _ hdbg2 => ?_⟩
        exact absurd (hdbg.symm.trans hdbg2) Bool.false_ne_true
    · have hof2 : v.opts &&& OFIRST = 0 := by omega
      rw [store_io_nofirst v addr val cyc hio hof2] at h
      rw [← Option.some.inj h]
      exact ⟨rfl, by simp, fun h0 => ⟨rfl, h0⟩, fun hof3 _ => absurd hof2 hof3⟩
  · by_cases hmod : addr % SZ < v.m.length
    · rw [store, if_neg hio, if_pos hmod] at h
      rw [← Option.some.inj h]
      exact diagInv_of_eq v _ rfl rfl rfl rfl
    · rw [store, if_neg hio, if_neg hmod] at h
      simp at h

theorem step_diagInv (opts0 : Nat) (v : VM) (pc a cyc : Nat) :
    (∀ v' p' a', step opts0 v pc a cyc = .cont v' p' a' → DiagInv v v') ∧
    (∀ v' p' a', step opts0 v pc a cyc = .halt v' p' a' → DiagInv v v') ∧
    (∀ v', step opts0 v pc a cyc = .traceErr v' → DiagInv v v') := by
  cases hm : v.m.get? (pc % SZ) with
  | none =>
    simp only [step, hm]
    exact ⟨fun v' p' a' h => by simp at h, fun v' p' a' h => by simp at h,
      fun v' h => by simp at h⟩
  | some ins0 =>
    simp only [step, hm]
    cases hfa : fetchArg v (w16 ins0) with
    | none =>
      simp only [hfa]
      exact ⟨fun v' p' a' h => by simp at h, fun v' p' a' h => by simp at h,
        fun v' h => by simp at h⟩
    | some p =>
      obtain ⟨arg, v1⟩ := p
      have hv1 : v1 = v := fetchArg_vm_eq v v1 (w16 ins0) arg hfa
      subst hv1
      simp only [hfa]
      by_cases htr : v1.debug = true ∧ v1.traceOk = false
      · rw [if_pos htr]
        refine ⟨fun v' p' a' h => by simp at h, fun v' p' a' h => by simp at h,
          fun v' h => ?_⟩
        simp only [StepRes.traceErr.injEq] at h
        rw [← h]
        exact diagInv_rfl v1
      · rw [if_neg htr]
        have hbound : (w16 ins0 >>> 12) &&& 0x7 ≤ 7 := Nat.and_le_right
        generalize halu : (w16 ins0 >>> 12) &&& 0x7 = alu at hbound ⊢
        interval_cases alu
        · refine ⟨fun v' p' a' h => ?_, fun v' p' a' h => by simp at h,
            fun v' h => by simp at h⟩
          simp only [StepRes.cont.injEq] at h
          rw [← h.1]; exact diagInv_rfl v1
        · refine ⟨fun v' p' a' h => ?_, fun v' p' a' h => by simp at h,
            fun v' h => by simp at h⟩
          simp only [StepRes.cont.injEq] at h
          rw [← h.1]; exact diagInv_rfl v1
        · refine ⟨fun v' p' a' h => ?_, fun v' p' a' h => by simp at h,
            fun v' h => by simp at h⟩
          simp only [StepRes.cont.injEq] at h
          rw [← h.1]; exact diagInv_rfl v1
        · refine ⟨fun v' p' a' h => ?_, fun v' p' a' h => by simp at h,
            fun v' h => by simp at h⟩
          simp only [StepRes.cont.injEq] at h
          rw [← h.1]; exact diagInv_rfl v1
        · rcases hld : load v1 arg true with _ | q
          · simp only [hld]
            exact ⟨fun v' p' a' h => by simp at h, fun v' p' a' h => by simp at h,
              fun v' h => by simp at h⟩
          · obtain ⟨x, v2⟩ := q
            simp only [hld]
            refine ⟨fun v' p' a' h => ?_, fun v' p' a' h => by simp at h,
              fun v' h => by simp at h⟩
            simp only [StepRes.cont.injEq] at h
            rcases load_fields v1 v2 arg x true hld with ⟨f1, f2, f3, f4⟩
            rw [← h.1]
            exact diagInv_of_eq v1 v2 f1 f2 f3 f4
        · rcases hst : store v1 arg a cyc with _ | v2
          · simp only [hst]
            exact ⟨fun v' p' a' h => by simp at h, fun v' p' a' h => by simp at h,
              fun v' h => by simp at h⟩
          · simp only [hst]
            refine ⟨fun v' p' a' h => ?_, fun v' p' a' h => by simp at h,
              fun v' h => by simp at h⟩
            simp only [StepRes.cont.injEq] at h
            rw [← h.1]
            exact store_diagInv v1 v2 arg a cyc hst
        · by_cases hpa : pc = arg
          · rw [if_pos hpa]
            refine ⟨fun v' p' a' h => by simp at h, fun v' p' a' h => ?_,
              fun v' h => by simp at h⟩
            simp only [StepRes.halt.injEq] at h
            rw [← h.1]; exact diagInv_rfl v1
          · rw [if_neg hpa]
            refine ⟨fun v' p' a' h => ?_, fun v' p' a' h => by simp at h,
              fun v' h => by simp at h⟩
            simp only [StepRes.cont.injEq] at h
            rw [← h.1]; exact diagInv_rfl v1
        · refine ⟨fun v' p' a' h => ?_, fun v' p' a' h => by simp at h,
            fun v' h => by simp at h⟩
          simp only [StepRes.cont.injEq] at h
          rw [← h.1]; exact diagInv_rfl v1

theorem runLoop_diagInv (opts0 fuel : Nat) :
    ∀ (v : VM) (pc a cyc : Nat) (u : VM),
      (runLoop opts0 fuel v pc a cyc).finalVM = some u → DiagInv v u := by
  induction fuel with
  | zero =>
    intro v pc a cyc u h
    have h2 : some v = some u := h
    rw [← Option.some.inj h2]
    exact diagInv_rfl v
  | succ fuel ih =>
    intro v pc a cyc u h
    rcases step_diagInv opts0 v pc a cyc with ⟨hc, hh, ht⟩
    simp only [runLoop] at h
    cases hs : step opts0 v pc a cyc with
    | cont v' p' a' =>
      rw [hs] at h
      exact diagInv_trans v v' u (hc v' p' a' hs) (ih v' p' a' (cyc + 1) u h)
    | halt v' p' a' =>
      rw [hs] at h
      have h2 : some ({ v' with pc := p', a := a' } : VM) = some u := h
      rw [← Option.some.inj h2]
      exact hh v' p' a' hs
    | traceErr v' =>
      rw [hs] at h
      have h2 : some v' = some u := h
      rw [← Option.some.inj h2]
      exact ht v' hs
    | memFault =>
      rw [hs] at h
      simp [RunRes.finalVM] at h

/-- C6 (amended): the "cycles until first output" diagnostic requires the
run to start with the `OFIRST` marker pending and a debug sink attached.
Under that precondition an I/O STORE consumes the marker, emits exactly the
current cycle count, and outputs the value; over a whole run the trace gains
exactly one entry, precisely when output has happened (so with two or more
I/O STOREs it is emitted exactly once, at the first one).  Once the marker
is consumed - and in particular in every run whose options never had
`OFIRST`, such as the shipped `main`, which leaves `opts` zero-initialised -
the diagnostic is never emitted. -/
theorem c6_first_output_once :
    (∀ (v : VM) (addr val cyc : Nat), addr &&& 0x8000 ≠ 0 →
      v.opts &&& OFIRST ≠ 0 → v.debug = true →
      store v addr val cyc =
        some { v with opts := v.opts &&& 0xFFFB, diag := v.diag ++ [cyc],
                      outp := v.outp ++ [val] }) ∧
    (∀ (fuel opts0 : Nat) (v : VM) (pc a cyc : Nat) (u : VM),
      (runLoop opts0 fuel v pc a cyc).finalVM = some u →
      v.opts &&& OFIRST ≠ 0 → v.debug = true →
      (u.outp.length = v.outp.length → u.diag = v.diag) ∧
      (u.outp.length ≠ v.outp.length → ∃ c, u.diag = v.diag ++ [c])) ∧
    (∀ (fuel opts0 : Nat) (v : VM) (pc a cyc : Nat) (u : VM),
      (runLoop opts0 fuel v pc a cyc).finalVM = some u →
      v.opts &&& OFIRST = 0 → u.diag = v.diag) := by
  refine ⟨store_io_first, ?_, ?_⟩
  · intro fuel opts0 v pc a cyc u h hof hdbg
    rcases runLoop_diagInv opts0 fuel v pc a cyc u h with ⟨_, _, _, f⟩
    rcases f hof hdbg with ⟨e1, e2, _⟩ | ⟨lt, ⟨c, e⟩, _⟩
    · exact ⟨fun _ => e2, fun hne => absurd e1 hne⟩
    · exact ⟨fun heq => by omega, fun _ => ⟨c, e⟩⟩
  · intro fuel opts0 v pc a cyc u h h0
    exact ((runLoop_diagInv opts0 fuel v pc a cyc u h).2.2.1 h0).1

/-- C6 (counterexample): a run with a debug sink whose options do not
include `OFIRST` (as in the shipped `main`, which zero-initialises `opts`)
performs two I/O STOREs yet emits the first-output diagnostic zero times,
not once. -/
theorem c6_first_output_once_counterexample :
    run cex6VM 3 = .ok { cex6VM with pc := 2, a := 0, outp := [0, 0] } ∧
    cex6VM.debug = true ∧
    ({ cex6VM with pc := 2, a := 0, outp := [0, 0] } : VM).outp.length = 2 ∧
    ({ cex6VM with pc := 2, a := 0, outp := [0, 0] } : VM).diag = [] :=
  ⟨by rfl, rfl, rfl, rfl⟩

/-- Witness for C6 (amended): with `OFIRST` pending and debug attached, a
store to an I/O address emits once; the two-I/O-STORE run from `wit6VM`
gains exactly one diagnostic entry; and a marker-free run keeps its trace. -/
theorem c6_first_output_once_witness :
    ((0x8000 : Nat) &&& 0x8000 ≠ 0 ∧ wit6VM.opts &&& OFIRST ≠ 0 ∧
      wit6VM.debug = true) ∧
    store wit6VM 0x8000 7 9 =
      some { wit6VM with opts := wit6VM.opts &&& 0xFFFB,
                         diag := wit6VM.diag ++ [9],
                         outp := wit6VM.outp ++ [7] } ∧
    (({ wit6VM with
        pc := 2, a := 0, opts := 1, outp := [0, 0], diag := [0] } : VM).outp.length ≠
        wit6VM.outp.length →
      ∃ c, ({ wit6VM with
        pc := 2, a := 0, opts := 1, outp := [0, 0], diag := [0] } : VM).diag =
        wit6VM.diag ++ [c]) ∧
    ({ cex6VM with pc := 2, a := 0, outp := [0, 0] } : VM).diag =
      cex6VM.diag :=
  ⟨⟨by decide, by decide, rfl⟩,
    c6_first_output_once.1 wit6VM 0x8000 7 9 (by decide) (by decide) rfl,
    (c6_first_output_once.2.1 3 5 wit6VM 0 0 0
      { wit6VM with pc := 2, a := 0, opts := 1, outp := [0, 0], diag := [0] }
      (by rfl) (by decide) rfl).2,
    c6_first_output_once.2.2 3 1 cex6VM 0 0 0
      { cex6VM with pc := 2, a := 0, outp := [0, 0] } (by rfl) (by decide)⟩

end LfsrVhdl
